import Mathlib

/-!
# Verification of the deep-property sorter

Shallow embedding of the comparator factory `createDeepPropertySorter`
and its helpers (`getValueByPath`, `getSortGroup`, `getFirstValid`),
following the 4-group version of the source; the 2-group variant is
embedded in the `App` namespace.

Modelling notes.
* Records are JSON-like trees (`JSValue`).  Optional chaining in the
  resolver short-circuits only on absent (undefined) and null; any
  other value supports property access, on primitives via boxing.  The
  boxed data properties of strings — `length` and canonical integer
  indices — are modelled; function-valued prototype properties
  (methods such as `toString` or `charAt`) and the prototype chain of
  plain objects are outside the model and yield absent, and numbers
  and booleans have no own data properties at all.
* JS numbers: finite values are modelled as integers (non-integral
  floating-point values are outside the model; no arithmetic is ever
  performed on numbers, only `String(value)`), and the non-finite
  values NaN and the two infinities are represented explicitly, since
  `String(value)` gives them distinguished representations.
* `String.prototype.trim` is modelled over the ASCII whitespace set,
  `toLowerCase` over the ASCII letters, as the classifier itself is
  ASCII-only.
-/

/-- A JavaScript numeric value as it matters to the sorter: an integral
finite value, or one of the non-finite values.  `String(value)` is the
only operation the source performs on numbers. -/
inductive JSNumber where
  | intVal (i : Int)
  | nan
  | posInf
  | negInf

/-- A JSON-like runtime value: number, string, boolean, null, or an
object given by its ordered field list (keys unique at runtime). -/
inductive JSValue where
  | num (n : JSNumber)
  | str (s : String)
  | boolean (b : Bool)
  | null
  | obj (fields : List (String × JSValue))

/-- ASCII whitespace recognised by the model of `String.prototype.trim`:
space, tab, line feed, vertical tab, form feed, carriage return. -/
def isJsSpace (c : Char) : Bool :=
  decide (c.toNat = 32 ∨ c.toNat = 9 ∨ c.toNat = 10 ∨ c.toNat = 11 ∨
    c.toNat = 12 ∨ c.toNat = 13)

/-- Drop whitespace from both ends of a character list. -/
def trimList (l : List Char) : List Char :=
  ((l.dropWhile isJsSpace).reverse.dropWhile isJsSpace).reverse

/-- Model of `value.trim()`. -/
def jsTrim (s : String) : String := ⟨trimList s.data⟩

/-- Model of `toLowerCase` on one character: ASCII uppercase letters map
to the corresponding lowercase letter, everything else is unchanged. -/
def jsToLowerChar (c : Char) : Char :=
  if 65 ≤ c.toNat ∧ c.toNat ≤ 90 then Char.ofNat (c.toNat + 32) else c

/-- Model of `value.toLowerCase()`. -/
def jsToLower (s : String) : String := ⟨s.data.map jsToLowerChar⟩

/-- The character of a decimal digit (`0 ≤ n ≤ 9` at every use site). -/
def digitChar (n : Nat) : Char := Char.ofNat (48 + n)

/-- Least-significant-first decimal digits of `n`, with explicit fuel so
that the definition is structural and evaluates by kernel reduction. -/
def natToDigitsAux : Nat → Nat → List Char
  | 0, _ => []
  | fuel + 1, n =>
    if n = 0 then [] else digitChar (n % 10) :: natToDigitsAux fuel (n / 10)

/-- Decimal representation of a natural number, mirroring `String(n)`. -/
def natToString (n : Nat) : List Char :=
  if n = 0 then ['0'] else (natToDigitsAux (n + 1) n).reverse

/-- Model of `String(value)` on a JS number: integers print as an
optional minus sign followed by decimal digits; the non-finite values
print their JS names. -/
def jsNumToString : JSNumber → String
  | .intVal i => if i < 0 then ⟨'-' :: natToString i.natAbs⟩ else ⟨natToString i.toNat⟩
  | .nan => "NaN"
  | .posInf => "Infinity"
  | .negInf => "-Infinity"

/-- First binding of `key` in an object's field list. -/
def lookupField : List (String × JSValue) → String → Option JSValue
  | [], _ => none
  | (k, v) :: rest, key => if k = key then some v else lookupField rest key

/-- The numeric value of a run of decimal digit characters. -/
def digitsVal (l : List Char) : Nat :=
  l.foldl (fun acc c => acc * 10 + (c.toNat - 48)) 0

/-- A property key that is a canonical integer index: a non-empty run
of decimal digits with no leading zero (except "0" itself).  Only such
keys hit a string's index properties, as in `"hi"["0"]` but not
`"hi"["00"]`. -/
def parseIndex (key : String) : Option Nat :=
  match key.data with
  | [] => none
  | c :: t =>
    if (∀ d ∈ c :: t, 48 ≤ d.toNat ∧ d.toNat ≤ 57) ∧ (c = '0' → t = [])
    then some (digitsVal (c :: t)) else none

/-- One step of the reducer `acc?.[key]`: optional chaining
short-circuits on absent (undefined) and on null; an object is looked
up among its own fields; a string exposes its boxed data properties —
`length` and its canonical integer indices; numbers and booleans have
no own data properties.  Function-valued prototype properties (methods)
and the prototype chain are outside the model and yield absent. -/
def jsLookup (acc : Option JSValue) (key : String) : Option JSValue :=
  match acc with
  | none => none
  | some (.obj fields) => lookupField fields key
  | some (.str s) =>
    if key = "length" then some (.num (.intVal s.data.length))
    else
      match parseIndex key with
      | some n =>
        match s.data[n]? with
        | some c => some (.str ⟨[c]⟩)
        | none => none
      | none => none
  | some _ => none

/-- Model of `path.split('.')` on the character list: empty segments are
preserved literally, and the empty path yields one empty segment. -/
def splitOnDot : List Char → List Char → List (List Char)
  | [], acc => [acc.reverse]
  | c :: rest, acc =>
    if c = '.' then acc.reverse :: splitOnDot rest []
    else splitOnDot rest (c :: acc)

/-- The segments of a dot-separated path. -/
def splitPath (path : String) : List String :=
  (splitOnDot path.data []).map fun l => ⟨l⟩

/-- Embedding of `getValueByPath`: split the path on dots and reduce
with `acc?.[key]` starting from the record. -/
def getValueByPath (obj : JSValue) (path : String) : Option JSValue :=
  (splitPath path).foldl jsLookup (some obj)

/-- First character is an ASCII letter, as tested by a case-insensitive
letter regular expression. -/
def isAsciiLetter (c : Char) : Bool :=
  decide ((97 ≤ c.toNat ∧ c.toNat ≤ 122) ∨ (65 ≤ c.toNat ∧ c.toNat ≤ 90))

/-- First character is an ASCII digit, as tested by a digit regular
expression. -/
def isAsciiDigit (c : Char) : Bool :=
  decide (48 ≤ c.toNat ∧ c.toNat ≤ 57)

/-- Embedding of `getSortGroup`: empty (falsy) strings are group 3;
otherwise the first character decides — letter 0, digit 1, other 2. -/
def getSortGroup (value : String) : Int :=
  match value.data with
  | [] => 3
  | c :: _ => if isAsciiLetter c then 0 else if isAsciiDigit c then 1 else 2

/-- The spec's usability predicate on a resolved value: every number is
usable, a string is usable when its trimmed form is non-empty, and
everything else (absent, boolean, null, object) is not. -/
def isUsable : Option JSValue → Bool
  | some (.num _) => true
  | some (.str s) => !(jsTrim s == "")
  | _ => false

/-- Embedding of `getFirstValid` from the 4-group source: walk the keys
in priority order; a number returns its `String` form at once, a string
with non-empty trim returns its trimmed lowercased form, anything else
falls through; exhaustion returns the empty string. -/
def getFirstValid (keys : List String) (item : JSValue) : String :=
  match keys with
  | [] => ""
  | key :: rest =>
    match getValueByPath item key with
    | some (.num n) => jsNumToString n
    | some (.str s) => if jsTrim s = "" then getFirstValid rest item else jsToLower (jsTrim s)
    | _ => getFirstValid rest item

/-- Strict code-point lexicographic order on character lists. -/
def ltCharList : List Char → List Char → Bool
  | [], [] => false
  | [], _ :: _ => true
  | _ :: _, [] => false
  | a :: as, b :: bs =>
    if a.toNat < b.toNat then true
    else if b.toNat < a.toNat then false
    else ltCharList as bs

/-- Modelled from the spec: `localeCompare` with locale de-DE and
sensitivity base is an environment-provided collation primitive, not
code of this repository.  It is modelled as code-point comparison of
case-folded strings: a total comparison that identifies strings equal
up to case and returns a signed result, which is what the spec requires
of the collator. -/
def localeCompare (a b : String) : Int :=
  let fa := (jsToLower a).data
  let fb := (jsToLower b).data
  if ltCharList fa fb then -1 else if ltCharList fb fa then 1 else 0

/-- Embedding of the 4-group comparator returned by
`createDeepPropertySorter` (`keys` is the normalised key array). -/
def createDeepPropertySorter (keys : List String) (a b : JSValue) : Int :=
  let aVal := getFirstValid keys a
  let bVal := getFirstValid keys b
  let aGroup := getSortGroup aVal
  let bGroup := getSortGroup bVal
  if aGroup ≠ bGroup then aGroup - bGroup
  else localeCompare aVal bVal

namespace App

/-- Model of the anchored case-insensitive letter test on a string:
true when the string starts with an ASCII letter. -/
def startsWithLetter (v : String) : Bool :=
  match v.data with
  | [] => false
  | c :: _ => isAsciiLetter c

/-- Embedding of `getFirstValid` from the 2-group source: strings only,
numbers are not recognised. -/
def getFirstValid (keys : List String) (item : JSValue) : String :=
  match keys with
  | [] => ""
  | key :: rest =>
    match getValueByPath item key with
    | some (.str s) => if jsTrim s = "" then getFirstValid rest item else jsToLower (jsTrim s)
    | _ => getFirstValid rest item

/-- Embedding of the 2-group comparator of the second source version:
letter-led values sort before non-letter-led values, everything else is
left to the locale comparison. -/
def createDeepPropertySorter (keys : List String) (a b : JSValue) : Int :=
  let aVal := getFirstValid keys a
  let bVal := getFirstValid keys b
  let aIsLetter := startsWithLetter aVal
  let bIsLetter := startsWithLetter bVal
  if aIsLetter && !bIsLetter then -1
  else if !aIsLetter && bIsLetter then 1
  else localeCompare aVal bVal

end App

/-! ## Character-level lemmas -/

theorem char_toNat_ofNat (n : Nat) (h : n < 55296) : (Char.ofNat n).toNat = n := by
  have hv : n.isValidChar := Or.inl h
  unfold Char.ofNat
  rw [dif_pos hv]
  rfl

theorem jsToLowerChar_toNat (c : Char) (h : 65 ≤ c.toNat ∧ c.toNat ≤ 90) :
    (jsToLowerChar c).toNat = c.toNat + 32 := by
  rw [jsToLowerChar, if_pos h, char_toNat_ofNat]
  omega

theorem jsToLowerChar_idem (c : Char) :
    jsToLowerChar (jsToLowerChar c) = jsToLowerChar c := by
  by_cases h : 65 ≤ c.toNat ∧ c.toNat ≤ 90
  · have ht := jsToLowerChar_toNat c h
    rw [jsToLowerChar, if_neg (by omega)]
  · have hc : jsToLowerChar c = c := by rw [jsToLowerChar, if_neg h]
    simp only [hc]

theorem isJsSpace_jsToLowerChar (c : Char) :
    isJsSpace (jsToLowerChar c) = isJsSpace c := by
  by_cases h : 65 ≤ c.toNat ∧ c.toNat ≤ 90
  · have ht := jsToLowerChar_toNat c h
    simp only [isJsSpace, ht, decide_eq_decide]
    omega
  · have hc : jsToLowerChar c = c := by rw [jsToLowerChar, if_neg h]
    simp only [hc]

/-! ## Trimming and lowercasing lemmas -/

theorem head_dropWhile_false (p : Char → Bool) (l : List Char) (c : Char)
    (h : (l.dropWhile p).head? = some c) : p c = false := by
  induction l with
  | nil => simp [List.dropWhile] at h
  | cons a t ih =>
    rw [List.dropWhile_cons] at h
    by_cases hpa : p a = true
    · rw [if_pos hpa] at h; exact ih h
    · rw [if_neg hpa] at h
      simp only [List.head?_cons, Option.some.injEq] at h
      subst h
      exact eq_false_of_ne_true hpa

theorem getLast_dropWhile_false (p : Char → Bool) (l : List Char)
    (h : ∀ c, l.getLast? = some c → p c = false) :
    ∀ c, (l.dropWhile p).getLast? = some c → p c = false := by
  induction l with
  | nil => intro c hc; simp [List.dropWhile] at hc
  | cons a t ih =>
    intro c hc
    rw [List.dropWhile_cons] at hc
    by_cases hpa : p a = true
    · rw [if_pos hpa] at hc
      refine ih ?_ c hc
      intro d hd
      apply h
      cases t with
      | nil => simp [List.dropWhile] at hc
      | cons b u => rw [List.getLast?_cons_cons]; exact hd
    · rw [if_neg hpa] at hc
      exact h c hc

theorem dropWhile_eq_self_of_head (p : Char → Bool) (l : List Char)
    (h : ∀ c, l.head? = some c → p c = false) : l.dropWhile p = l := by
  cases l with
  | nil => rfl
  | cons a t =>
    have : p a = false := h a rfl
    rw [List.dropWhile_cons, if_neg (by simp [this])]

theorem trimList_head (c : Char) (l : List Char)
    (h : (trimList l).head? = some c) : isJsSpace c = false := by
  rw [trimList, List.head?_reverse] at h
  refine getLast_dropWhile_false isJsSpace _ ?_ c h
  intro d hd
  rw [List.getLast?_reverse] at hd
  exact head_dropWhile_false isJsSpace l d hd

theorem trimList_getLast (c : Char) (l : List Char)
    (h : (trimList l).getLast? = some c) : isJsSpace c = false := by
  rw [trimList, List.getLast?_reverse] at h
  exact head_dropWhile_false isJsSpace _ c h

theorem trimList_idem (l : List Char) : trimList (trimList l) = trimList l := by
  have h1 : (trimList l).dropWhile isJsSpace = trimList l :=
    dropWhile_eq_self_of_head _ _ (fun c hc => trimList_head c l hc)
  have h2 : (trimList l).reverse.dropWhile isJsSpace = (trimList l).reverse := by
    refine dropWhile_eq_self_of_head _ _ ?_
    intro c hc
    rw [List.head?_reverse] at hc
    exact trimList_getLast c l hc
  rw [trimList, h1, h2, List.reverse_reverse]

theorem trimList_map_lower (l : List Char) :
    trimList (l.map jsToLowerChar) = (trimList l).map jsToLowerChar := by
  have hp : (isJsSpace ∘ jsToLowerChar) = isJsSpace := by
    funext c; exact isJsSpace_jsToLowerChar c
  rw [trimList, trimList, List.dropWhile_map, hp, ← List.map_reverse,
    List.dropWhile_map, hp, ← List.map_reverse]

theorem map_lower_idem (l : List Char) :
    (l.map jsToLowerChar).map jsToLowerChar = l.map jsToLowerChar := by
  rw [List.map_map]
  refine List.map_congr_left ?_
  intro c _
  exact jsToLowerChar_idem c

/-- The trimmed lowercased form is a fixed point of trimming and
lowercasing again. -/
theorem jsLower_jsTrim_fixed (s : String) :
    jsToLower (jsTrim (jsToLower (jsTrim s))) = jsToLower (jsTrim s) := by
  apply congrArg String.mk
  show (trimList ((trimList s.data).map jsToLowerChar)).map jsToLowerChar
      = (trimList s.data).map jsToLowerChar
  rw [trimList_map_lower, trimList_idem, map_lower_idem]

/-! ## Decimal representation lemmas -/

theorem natToDigitsAux_digits (fuel : Nat) :
    ∀ (n : Nat) (c : Char), c ∈ natToDigitsAux fuel n → 48 ≤ c.toNat ∧ c.toNat ≤ 57 := by
  induction fuel with
  | zero => intro n c hc; simp [natToDigitsAux] at hc
  | succ fuel ih =>
    intro n c hc
    rw [natToDigitsAux] at hc
    by_cases h0 : n = 0
    · rw [if_pos h0] at hc; simp at hc
    · rw [if_neg h0] at hc
      rcases List.mem_cons.mp hc with hd | ht
      · subst hd
        have hmod : n % 10 < 10 := Nat.mod_lt _ (by omega)
        rw [digitChar, char_toNat_ofNat _ (by omega)]
        omega
      · exact ih _ c ht

theorem natToString_ne_nil (n : Nat) : natToString n ≠ [] := by
  rw [natToString]
  by_cases h0 : n = 0
  · rw [if_pos h0]; simp
  · rw [if_neg h0]
    simp only [ne_eq, List.reverse_eq_nil_iff]
    rw [natToDigitsAux, if_neg h0]
    simp

theorem natToString_head_digit (n : Nat) (c : Char)
    (h : (natToString n).head? = some c) : 48 ≤ c.toNat ∧ c.toNat ≤ 57 := by
  by_cases h0 : n = 0
  · subst h0
    rw [natToString, if_pos rfl] at h
    simp only [List.head?_cons, Option.some.injEq] at h
    subst h
    constructor <;> decide
  · rw [natToString, if_neg h0] at h
    rcases hr : (natToDigitsAux (n + 1) n).reverse with _ | ⟨d, t⟩
    · rw [hr] at h; simp at h
    · rw [hr] at h
      simp only [List.head?_cons, Option.some.injEq] at h
      have hm : d ∈ (natToDigitsAux (n + 1) n).reverse := by
        rw [hr]; exact List.mem_cons_self _ _
      rw [← h]
      exact natToDigitsAux_digits _ _ _ (List.mem_reverse.mp hm)

/-! ## Classifier lemmas -/

theorem isAsciiLetter_false_of_digit (c : Char)
    (h : 48 ≤ c.toNat ∧ c.toNat ≤ 57) : isAsciiLetter c = false := by
  apply decide_eq_false
  omega

theorem isAsciiDigit_true_of_digit (c : Char)
    (h : 48 ≤ c.toNat ∧ c.toNat ≤ 57) : isAsciiDigit c = true := by
  apply decide_eq_true
  omega

theorem getSortGroup_mk_cons (c : Char) (t : List Char) :
    getSortGroup ⟨c :: t⟩ =
      if isAsciiLetter c then 0 else if isAsciiDigit c then 1 else 2 := rfl

theorem getSortGroup_of_data (v : String) (c : Char) (t : List Char)
    (h : v.data = c :: t) :
    getSortGroup v = if isAsciiLetter c then 0 else if isAsciiDigit c then 1 else 2 := by
  simp only [getSortGroup, h]

theorem getSortGroup_mem (v : String) :
    getSortGroup v = 0 ∨ getSortGroup v = 1 ∨ getSortGroup v = 2 ∨ getSortGroup v = 3 := by
  rcases hd : v.data with _ | ⟨c, t⟩
  · simp [getSortGroup, hd]
  · rw [getSortGroup_of_data v c t hd]
    split_ifs <;> simp

theorem getSortGroup_eq_three_iff (v : String) : getSortGroup v = 3 ↔ v = "" := by
  constructor
  · intro h
    rcases hd : v.data with _ | ⟨c, t⟩
    · apply String.ext
      rw [hd]
    · exfalso
      rw [getSortGroup_of_data v c t hd] at h
      split_ifs at h <;> omega
  · rintro rfl
    rfl

theorem getSortGroup_jsNum_nonneg (i : Int) (h : 0 ≤ i) :
    getSortGroup (jsNumToString (.intVal i)) = 1 := by
  rw [jsNumToString, if_neg (by omega)]
  rcases hr : natToString i.toNat with _ | ⟨c, t⟩
  · exact absurd hr (natToString_ne_nil _)
  · rw [getSortGroup_mk_cons]
    have hc : 48 ≤ c.toNat ∧ c.toNat ≤ 57 := by
      apply natToString_head_digit i.toNat
      rw [hr]
      rfl
    rw [isAsciiLetter_false_of_digit c hc, isAsciiDigit_true_of_digit c hc]
    rfl

theorem jsNumToString_neg_data (i : Int) (h : i < 0) :
    (jsNumToString (.intVal i)).data = '-' :: natToString i.natAbs := by
  rw [jsNumToString, if_pos h]

theorem getSortGroup_jsNum_neg (i : Int) (h : i < 0) :
    getSortGroup (jsNumToString (.intVal i)) = 2 := by
  rw [jsNumToString, if_pos h, getSortGroup_mk_cons]
  rfl

/-! ## Collation model lemmas -/

theorem ltCharList_irrefl (l : List Char) : ltCharList l l = false := by
  induction l with
  | nil => rfl
  | cons a t ih =>
    rw [ltCharList, if_neg (by omega), if_neg (by omega)]
    exact ih

theorem ltCharList_asymm (l : List Char) :
    ∀ m, ltCharList l m = true → ltCharList m l = false := by
  induction l with
  | nil =>
    intro m h
    cases m with
    | nil => rfl
    | cons b bs => rfl
  | cons a as ih =>
    intro m h
    cases m with
    | nil => exact absurd h (by rw [ltCharList]; simp)
    | cons b bs =>
      rw [ltCharList] at h ⊢
      by_cases h1 : a.toNat < b.toNat
      · rw [if_neg (by omega), if_pos (by omega)]
      · by_cases h2 : b.toNat < a.toNat
        · rw [if_neg h1, if_pos h2] at h
          exact absurd h (by simp)
        · rw [if_neg h1, if_neg h2] at h
          rw [if_neg h2, if_neg h1]
          exact ih bs h

theorem localeCompare_self (v : String) : localeCompare v v = 0 := by
  simp [localeCompare, ltCharList_irrefl]

theorem localeCompare_eq_lt (a b : String)
    (h : ltCharList (jsToLower a).data (jsToLower b).data = true) :
    localeCompare a b = -1 := by
  simp [localeCompare, h]

theorem localeCompare_eq_gt (a b : String)
    (h1 : ltCharList (jsToLower a).data (jsToLower b).data = false)
    (h2 : ltCharList (jsToLower b).data (jsToLower a).data = true) :
    localeCompare a b = 1 := by
  simp [localeCompare, h1, h2]

theorem localeCompare_eq_zero (a b : String)
    (h1 : ltCharList (jsToLower a).data (jsToLower b).data = false)
    (h2 : ltCharList (jsToLower b).data (jsToLower a).data = false) :
    localeCompare a b = 0 := by
  simp [localeCompare, h1, h2]

theorem localeCompare_sign (a b : String) :
    (localeCompare a b).sign = -(localeCompare b a).sign := by
  cases hab : ltCharList (jsToLower a).data (jsToLower b).data with
  | true =>
    have hba := ltCharList_asymm _ _ hab
    rw [localeCompare_eq_lt a b hab, localeCompare_eq_gt b a hba hab]
    decide
  | false =>
    cases hba : ltCharList (jsToLower b).data (jsToLower a).data with
    | true =>
      rw [localeCompare_eq_gt a b hab hba, localeCompare_eq_lt b a hba]
      decide
    | false =>
      rw [localeCompare_eq_zero a b hab hba, localeCompare_eq_zero b a hba hab]
      decide

/-! ## Extraction lemmas -/

theorem getFirstValid_nil (item : JSValue) : getFirstValid [] item = "" := rfl

theorem getFirstValid_cons_num (item : JSValue) (k : String) (rest : List String)
    (n : JSNumber) (h : getValueByPath item k = some (.num n)) :
    getFirstValid (k :: rest) item = jsNumToString n := by
  simp [getFirstValid, h]

theorem getFirstValid_cons_str (item : JSValue) (k : String) (rest : List String)
    (s : String) (h : getValueByPath item k = some (.str s)) (hs : jsTrim s ≠ "") :
    getFirstValid (k :: rest) item = jsToLower (jsTrim s) := by
  simp [getFirstValid, h, hs]

theorem getFirstValid_cons_skip (item : JSValue) (k : String) (rest : List String)
    (h : isUsable (getValueByPath item k) = false) :
    getFirstValid (k :: rest) item = getFirstValid rest item := by
  cases hv : getValueByPath item k with
  | none => simp [getFirstValid, hv]
  | some v =>
    cases v with
    | num n => rw [hv] at h; simp [isUsable] at h
    | str s =>
      rw [hv] at h
      simp only [isUsable, Bool.not_eq_false', beq_iff_eq] at h
      simp [getFirstValid, hv, h]
    | boolean b => simp [getFirstValid, hv]
    | null => simp [getFirstValid, hv]
    | obj fields => simp [getFirstValid, hv]

theorem getFirstValid_append_skip (pre keys : List String) (item : JSValue)
    (h : ∀ k ∈ pre, isUsable (getValueByPath item k) = false) :
    getFirstValid (pre ++ keys) item = getFirstValid keys item := by
  induction pre with
  | nil => rfl
  | cons p ps ih =>
    rw [List.cons_append, getFirstValid_cons_skip _ _ _ (h p (by simp))]
    exact ih (fun k hk => h k (by simp [hk]))

theorem getFirstValid_empty_of_unusable (keys : List String) (item : JSValue)
    (h : ∀ k ∈ keys, isUsable (getValueByPath item k) = false) :
    getFirstValid keys item = "" := by
  have h2 := getFirstValid_append_skip keys [] item h
  rw [List.append_nil] at h2
  exact h2

/-! ## Path resolver lemmas -/

theorem foldl_jsLookup_none (segs : List String) :
    segs.foldl jsLookup none = none := by
  induction segs with
  | nil => rfl
  | cons k rest ih => rw [List.foldl_cons]; exact ih

/-! ## Comparator lemmas -/

theorem createDeepPropertySorter_group_ne (keys : List String) (a b : JSValue)
    (h : getSortGroup (getFirstValid keys a) ≠ getSortGroup (getFirstValid keys b)) :
    createDeepPropertySorter keys a b =
      getSortGroup (getFirstValid keys a) - getSortGroup (getFirstValid keys b) := by
  simp [createDeepPropertySorter, h]

theorem createDeepPropertySorter_group_eq (keys : List String) (a b : JSValue)
    (h : getSortGroup (getFirstValid keys a) = getSortGroup (getFirstValid keys b)) :
    createDeepPropertySorter keys a b =
      localeCompare (getFirstValid keys a) (getFirstValid keys b) := by
  simp [createDeepPropertySorter, h]

/-! ## Claim theorems -/

/-- Claim C1: for every record and path list, if the first path whose
resolved value is usable resolves to a number, `getFirstValid` returns
that number's canonical string representation immediately and never
falls through to a lower-priority path; in particular a record with a
path resolving to the number 0 extracts as "0" and classifies into the
Digit group. -/
theorem C1_number_always_usable (keys pre post : List String) (k : String)
    (item : JSValue) (n : JSNumber)
    (hk : keys = pre ++ k :: post)
    (hpre : ∀ p ∈ pre, isUsable (getValueByPath item p) = false)
    (hres : getValueByPath item k = some (.num n)) :
    getFirstValid keys item = jsNumToString n ∧
      (n = .intVal 0 → getFirstValid keys item = "0" ∧
        getSortGroup (getFirstValid keys item) = 1) := by
  subst hk
  have h1 : getFirstValid (pre ++ k :: post) item = jsNumToString n := by
    rw [getFirstValid_append_skip pre (k :: post) item hpre]
    exact getFirstValid_cons_num item k post n hres
  refine ⟨h1, ?_⟩
  rintro rfl
  rw [h1]
  constructor
  · decide
  · decide

/-- Witness for C1 at a record whose higher-priority path is absent and
whose second path holds the number 0. -/
theorem C1_witness :
    (["a", "b"] : List String) = ["a"] ++ "b" :: [] ∧
      (∀ p ∈ (["a"] : List String),
        isUsable (getValueByPath (JSValue.obj [("b", .num (.intVal 0))]) p) = false) ∧
      getValueByPath (JSValue.obj [("b", .num (.intVal 0))]) "b" =
        some (.num (.intVal 0)) ∧
      (getFirstValid ["a", "b"] (JSValue.obj [("b", .num (.intVal 0))]) =
          jsNumToString (.intVal 0) ∧
        (JSNumber.intVal 0 = .intVal 0 →
          getFirstValid ["a", "b"] (JSValue.obj [("b", .num (.intVal 0))]) = "0" ∧
          getSortGroup (getFirstValid ["a", "b"]
            (JSValue.obj [("b", .num (.intVal 0))])) = 1)) :=
  ⟨rfl, by decide, rfl,
    C1_number_always_usable ["a", "b"] ["a"] [] "b"
      (JSValue.obj [("b", .num (.intVal 0))]) (.intVal 0) rfl (by decide) rfl⟩

/-- Claim C2: for every pair of records, if the two extracted values
classify into different groups, the comparator returns the numeric
group difference, so records sort Letter before Digit before Symbol
before Missing; in particular a letter-led record sorts strictly first
against any record of a different group. -/
theorem C2_group_ordering (keys : List String) (a b : JSValue)
    (h : getSortGroup (getFirstValid keys a) ≠ getSortGroup (getFirstValid keys b)) :
    createDeepPropertySorter keys a b =
        getSortGroup (getFirstValid keys a) - getSortGroup (getFirstValid keys b) ∧
      (getSortGroup (getFirstValid keys a) = 0 →
        createDeepPropertySorter keys a b < 0) := by
  refine ⟨createDeepPropertySorter_group_ne keys a b h, ?_⟩
  intro h0
  rw [createDeepPropertySorter_group_ne keys a b h, h0]
  rcases getSortGroup_mem (getFirstValid keys b) with hb | hb | hb | hb <;>
    rw [hb] <;> rw [h0] at h <;> omega

/-- Witness for C2 at a letter-led record against a digit-led record. -/
theorem C2_witness :
    getSortGroup (getFirstValid ["x"] (JSValue.obj [("x", .str "abc")])) ≠
        getSortGroup (getFirstValid ["x"] (JSValue.obj [("x", .str "9z")])) ∧
      (createDeepPropertySorter ["x"] (JSValue.obj [("x", .str "abc")])
          (JSValue.obj [("x", .str "9z")]) =
        getSortGroup (getFirstValid ["x"] (JSValue.obj [("x", .str "abc")])) -
          getSortGroup (getFirstValid ["x"] (JSValue.obj [("x", .str "9z")])) ∧
        (getSortGroup (getFirstValid ["x"] (JSValue.obj [("x", .str "abc")])) = 0 →
          createDeepPropertySorter ["x"] (JSValue.obj [("x", .str "abc")])
            (JSValue.obj [("x", .str "9z")]) < 0)) :=
  ⟨by decide,
    C2_group_ordering ["x"] (JSValue.obj [("x", .str "abc")])
      (JSValue.obj [("x", .str "9z")]) (by decide)⟩

/-- Counterexample to claim C3 as stated: a path resolving to the
number NaN makes `getFirstValid` return "NaN", which is neither equal
to its own trimmed lowercased form "nan" nor the empty string. -/
theorem C3_counterexample :
    getFirstValid ["x"] (JSValue.obj [("x", .num .nan)]) = "NaN" ∧
      jsToLower (jsTrim (getFirstValid ["x"] (JSValue.obj [("x", .num .nan)]))) =
        "nan" ∧
      getFirstValid ["x"] (JSValue.obj [("x", .num .nan)]) ≠
        jsToLower (jsTrim (getFirstValid ["x"] (JSValue.obj [("x", .num .nan)]))) ∧
      getFirstValid ["x"] (JSValue.obj [("x", .num .nan)]) ≠ "" := by
  decide

/-- Claim C3 amended: the string returned by `getFirstValid` equals its
own trimmed lowercased form — in particular when it came from a string
path or is the empty string — unless it is the canonical representation
of a resolved number, which is returned verbatim (and for the
non-finite values NaN and Infinity contains uppercase letters). -/
theorem C3_trim_lower_invariant (keys : List String) (item : JSValue) :
    getFirstValid keys item = jsToLower (jsTrim (getFirstValid keys item)) ∨
      ∃ n : JSNumber, getFirstValid keys item = jsNumToString n := by
  induction keys with
  | nil => left; rfl
  | cons k rest ih =>
    cases hv : getValueByPath item k with
    | none => rw [getFirstValid_cons_skip _ _ _ (by simp [isUsable, hv])]; exact ih
    | some v =>
      cases v with
      | num n => exact Or.inr ⟨n, getFirstValid_cons_num _ _ _ _ hv⟩
      | str s =>
        by_cases hs : jsTrim s = ""
        · rw [getFirstValid_cons_skip _ _ _ (by simp [isUsable, hv, hs])]
          exact ih
        · left
          rw [getFirstValid_cons_str _ _ _ _ hv hs]
          exact (jsLower_jsTrim_fixed s).symm
      | boolean b =>
        rw [getFirstValid_cons_skip _ _ _ (by simp [isUsable, hv])]
        exact ih
      | null =>
        rw [getFirstValid_cons_skip _ _ _ (by simp [isUsable, hv])]
        exact ih
      | obj fields =>
        rw [getFirstValid_cons_skip _ _ _ (by simp [isUsable, hv])]
        exact ih

/-- Claim C4: a path resolving to a string whose trimmed form is empty
is skipped and extraction continues with the next path, and resolved
booleans, objects, null and absent values are likewise not usable and
are skipped without raising. -/
theorem C4_empty_present_skip (item : JSValue) (k : String) (rest : List String)
    (h : isUsable (getValueByPath item k) = false) :
    getFirstValid (k :: rest) item = getFirstValid rest item ∧
      (∀ s : String, jsTrim s = "" → isUsable (some (.str s)) = false) ∧
      (∀ b : Bool, isUsable (some (.boolean b)) = false) ∧
      isUsable (some .null) = false ∧
      (∀ fields, isUsable (some (.obj fields)) = false) ∧
      isUsable none = false := by
  refine ⟨getFirstValid_cons_skip item k rest h, ?_, ?_, rfl, ?_, rfl⟩
  · intro s hs; simp [isUsable, hs]
  · intro b; rfl
  · intro fields; rfl

/-- Witness for C4 at a record whose first path holds a whitespace-only
string and whose second path holds a name. -/
theorem C4_witness :
    isUsable (getValueByPath
        (JSValue.obj [("a", .str "  "), ("b", .str "Zoe")]) "a") = false ∧
      (getFirstValid ["a", "b"] (JSValue.obj [("a", .str "  "), ("b", .str "Zoe")]) =
          getFirstValid ["b"] (JSValue.obj [("a", .str "  "), ("b", .str "Zoe")]) ∧
        (∀ s : String, jsTrim s = "" → isUsable (some (.str s)) = false) ∧
        (∀ b : Bool, isUsable (some (.boolean b)) = false) ∧
        isUsable (some .null) = false ∧
        (∀ fields, isUsable (some (.obj fields)) = false) ∧
        isUsable none = false) :=
  ⟨by decide,
    C4_empty_present_skip (JSValue.obj [("a", .str "  "), ("b", .str "Zoe")])
      "a" ["b"] (by decide)⟩

/-- Claim C5: the classifier assigns group 3 (Missing) exactly to the
empty string, and on a non-empty string the group is determined solely
by the first character — ASCII letter 0, ASCII digit 1, anything else
2 — the rest of the string being irrelevant. -/
theorem C5_classifier (v : String) :
    (getSortGroup v = 3 ↔ v = "") ∧
      ∀ c t, v.data = c :: t →
        getSortGroup v =
            (if isAsciiLetter c then 0 else if isAsciiDigit c then 1 else 2) ∧
          getSortGroup v = getSortGroup ⟨[c]⟩ := by
  refine ⟨getSortGroup_eq_three_iff v, ?_⟩
  intro c t hd
  refine ⟨getSortGroup_of_data v c t hd, ?_⟩
  rw [getSortGroup_of_data v c t hd, getSortGroup_mk_cons]

/-- Witness for C5 at the two-character string "a1". -/
theorem C5_witness :
    ("a1" : String).data = 'a' :: ['1'] ∧
      (getSortGroup "a1" =
          (if isAsciiLetter 'a' then 0 else if isAsciiDigit 'a' then 1 else 2) ∧
        getSortGroup "a1" = getSortGroup ⟨['a']⟩) :=
  ⟨rfl, (C5_classifier "a1").2 'a' ['1'] rfl⟩

/-- Counterexample to claim C6 as stated: the string "hi" is not a
structure (not an object), yet property access on it does not
short-circuit to absent — boxed access exposes its length and index
properties, exactly as the source's `acc?.[key]` does. -/
theorem C6_counterexample :
    getValueByPath (JSValue.obj [("a", .str "hi")]) "a.length" =
        some (.num (.intVal 2)) ∧
      getValueByPath (JSValue.obj [("a", .str "hi")]) "a.0" = some (.str "h") ∧
      (∀ fields, JSValue.str "hi" ≠ JSValue.obj fields) :=
  ⟨rfl, rfl, fun _ h => JSValue.noConfusion h⟩

/-- Claim C6 amended: the path resolver walks the segments left to
right by folding the lookup step, and short-circuits to absent exactly
when the current value is absent (undefined or null) — an absent value
stays absent for all remaining segments, and null yields absent for
any key; other values support key lookup (on non-objects via boxing),
missing keys resolve to absent, and resolution is a total function
that never raises for missing intermediate structure. -/
theorem C6_resolver_nullish_short_circuit (obj : JSValue) (path : String) :
    getValueByPath obj path = (splitPath path).foldl jsLookup (some obj) ∧
      (∀ segs : List String, segs.foldl jsLookup none = none) ∧
      (∀ (key : String) (segs : List String),
        (key :: segs).foldl jsLookup (some .null) = none) ∧
      getValueByPath (.obj []) "a.b.c" = none := by
  refine ⟨rfl, foldl_jsLookup_none, ?_, rfl⟩
  intro key segs
  rw [List.foldl_cons]
  exact foldl_jsLookup_none segs

/-- Claim C7: the comparator is reflexive (compare of a record with
itself is 0) and antisymmetric in sign (swapping the arguments negates
the sign of the result). -/
theorem C7_reflexive_antisymmetric (keys : List String) (x y : JSValue) :
    createDeepPropertySorter keys x x = 0 ∧
      (createDeepPropertySorter keys x y).sign =
        -(createDeepPropertySorter keys y x).sign := by
  constructor
  · rw [createDeepPropertySorter_group_eq keys x x rfl]
    exact localeCompare_self _
  · by_cases h : getSortGroup (getFirstValid keys x) = getSortGroup (getFirstValid keys y)
    · rw [createDeepPropertySorter_group_eq keys x y h,
        createDeepPropertySorter_group_eq keys y x h.symm]
      exact localeCompare_sign _ _
    · rw [createDeepPropertySorter_group_ne keys x y h,
        createDeepPropertySorter_group_ne keys y x (Ne.symm h)]
      have hs : getSortGroup (getFirstValid keys y) - getSortGroup (getFirstValid keys x) =
          -(getSortGroup (getFirstValid keys x) - getSortGroup (getFirstValid keys y)) := by
        ring
      rw [hs, Int.sign_neg, neg_neg]

/-- Claim C8: when no configured path yields a usable value for either
record — in particular when the path list is empty — both records
extract to the empty string, both classify as Missing, and the
comparator returns 0 both ways: it stays total and the records are
mutually equal. -/
theorem C8_totality_on_missing (keys : List String) (a b : JSValue)
    (ha : ∀ k ∈ keys, isUsable (getValueByPath a k) = false)
    (hb : ∀ k ∈ keys, isUsable (getValueByPath b k) = false) :
    getFirstValid keys a = "" ∧ getFirstValid keys b = "" ∧
      getSortGroup (getFirstValid keys a) = 3 ∧
      getSortGroup (getFirstValid keys b) = 3 ∧
      createDeepPropertySorter keys a b = 0 ∧
      createDeepPropertySorter keys b a = 0 := by
  have ga := getFirstValid_empty_of_unusable keys a ha
  have gb := getFirstValid_empty_of_unusable keys b hb
  refine ⟨ga, gb, ?_, ?_, ?_, ?_⟩
  · rw [ga]; rfl
  · rw [gb]; rfl
  · rw [createDeepPropertySorter_group_eq keys a b (by rw [ga, gb]), ga, gb]
    exact localeCompare_self ""
  · rw [createDeepPropertySorter_group_eq keys b a (by rw [ga, gb]), ga, gb]
    exact localeCompare_self ""

/-- Witness for C8 with the empty path list, where the hypotheses hold
vacuously for any pair of records. -/
theorem C8_witness :
    (∀ k ∈ ([] : List String),
        isUsable (getValueByPath (JSValue.obj [("name", .str "Q")]) k) = false) ∧
      (∀ k ∈ ([] : List String),
        isUsable (getValueByPath (JSValue.obj []) k) = false) ∧
      (getFirstValid [] (JSValue.obj [("name", .str "Q")]) = "" ∧
        getFirstValid [] (JSValue.obj []) = "" ∧
        getSortGroup (getFirstValid [] (JSValue.obj [("name", .str "Q")])) = 3 ∧
        getSortGroup (getFirstValid [] (JSValue.obj [])) = 3 ∧
        createDeepPropertySorter [] (JSValue.obj [("name", .str "Q")])
          (JSValue.obj []) = 0 ∧
        createDeepPropertySorter [] (JSValue.obj [])
          (JSValue.obj [("name", .str "Q")]) = 0) :=
  ⟨by decide, by decide,
    C8_totality_on_missing [] (JSValue.obj [("name", .str "Q")]) (JSValue.obj [])
      (by decide) (by decide)⟩

/-- Claim C9: the 4-group comparator and the 2-group comparator of the
two source versions are divergent: on a digit-led record against a
record with no usable value, the 4-group version returns a negative
result (Digit before Missing) while the 2-group version, which treats
both sides as non-letter and falls to the locale comparison, returns a
positive one. -/
theorem C9_two_versions_divergent :
    createDeepPropertySorter ["x"] (JSValue.obj [("x", .str "1")])
        (JSValue.obj []) = -2 ∧
      App.createDeepPropertySorter ["x"] (JSValue.obj [("x", .str "1")])
        (JSValue.obj []) = 1 ∧
      getSortGroup (getFirstValid ["x"] (JSValue.obj [("x", .str "1")])) = 1 ∧
      getSortGroup (getFirstValid ["x"] (JSValue.obj [])) = 3 ∧
      App.startsWithLetter (App.getFirstValid ["x"]
        (JSValue.obj [("x", .str "1")])) = false ∧
      App.startsWithLetter (App.getFirstValid ["x"] (JSValue.obj [])) = false := by
  decide

/-- Claim C10: a record whose first usable value is a negative (finite)
number extracts to a string beginning with the minus sign, classifies
into the Symbol group, and sorts after every letter-led and digit-led
record, even though the positive number of the same magnitude
classifies into the Digit group. -/
theorem C10_negative_number_symbol_group (keys pre post : List String) (k : String)
    (item : JSValue) (i : Int)
    (hk : keys = pre ++ k :: post)
    (hpre : ∀ p ∈ pre, isUsable (getValueByPath item p) = false)
    (hres : getValueByPath item k = some (.num (.intVal i)))
    (hneg : i < 0) :
    (getFirstValid keys item).data.head? = some '-' ∧
      getSortGroup (getFirstValid keys item) = 2 ∧
      (∀ other : JSValue,
        getSortGroup (getFirstValid keys other) = 0 ∨
          getSortGroup (getFirstValid keys other) = 1 →
        0 < createDeepPropertySorter keys item other) ∧
      getSortGroup (jsNumToString (.intVal (-i))) = 1 := by
  subst hk
  have h1 : getFirstValid (pre ++ k :: post) item = jsNumToString (.intVal i) := by
    rw [getFirstValid_append_skip pre (k :: post) item hpre]
    exact getFirstValid_cons_num item k post _ hres
  have hg : getSortGroup (getFirstValid (pre ++ k :: post) item) = 2 := by
    rw [h1]
    exact getSortGroup_jsNum_neg i hneg
  refine ⟨?_, hg, ?_, ?_⟩
  · rw [h1, jsNumToString_neg_data i hneg]
    rfl
  · intro other hother
    have hne : getSortGroup (getFirstValid (pre ++ k :: post) item) ≠
        getSortGroup (getFirstValid (pre ++ k :: post) other) := by
      rcases hother with h | h <;> rw [hg, h] <;> omega
    rw [createDeepPropertySorter_group_ne _ _ _ hne, hg]
    rcases hother with h | h <;> rw [h] <;> omega
  · exact getSortGroup_jsNum_nonneg (-i) (by omega)

/-- Witness for C10 at a record holding the number minus seven. -/
theorem C10_witness :
    (["n"] : List String) = [] ++ "n" :: [] ∧
      (∀ p ∈ ([] : List String),
        isUsable (getValueByPath (JSValue.obj [("n", .num (.intVal (-7)))]) p) = false) ∧
      getValueByPath (JSValue.obj [("n", .num (.intVal (-7)))]) "n" =
        some (.num (.intVal (-7))) ∧
      ((-7 : Int) < 0) ∧
      ((getFirstValid ["n"] (JSValue.obj [("n", .num (.intVal (-7)))])).data.head? =
          some '-' ∧
        getSortGroup (getFirstValid ["n"] (JSValue.obj [("n", .num (.intVal (-7)))])) = 2 ∧
        (∀ other : JSValue,
          getSortGroup (getFirstValid ["n"] other) = 0 ∨
            getSortGroup (getFirstValid ["n"] other) = 1 →
          0 < createDeepPropertySorter ["n"]
            (JSValue.obj [("n", .num (.intVal (-7)))]) other) ∧
        getSortGroup (jsNumToString (.intVal (-(-7)))) = 1) :=
  ⟨rfl, by decide, rfl, by decide,
    C10_negative_number_symbol_group ["n"] [] [] "n"
      (JSValue.obj [("n", .num (.intVal (-7)))]) (-7) rfl (by decide) rfl (by decide)⟩
